import Mathlib

/-!
# Verification of the badge / claim-code model (`src/models/badge-instance.js`)

A shallow embedding of the claim-code engine and the badge aggregation
engine of the repository.  JavaScript objects become Lean structures,
nullable fields become `Option`, JS string truthiness is modelled
explicitly, and the asynchronous store round-trips become explicit state
passing over a `Store` value.  Recursion in `award` (category cascades)
is fuelled; the `async.until` retry loop of `generateClaimCodes` is
modelled as a fuelled loop plus a one-iteration step function.
-/

set_option maxHeartbeats 1000000

namespace Badger

/-- JS truthiness for an optional string field: `undefined`/`null` and the
empty string are falsy, every other string is truthy. -/
def strTruthy : Option String → Bool
  | none => false
  | some s => !(s == "")

/-- One embedded claim code (`ClaimCodeSchema`): a token, the optional
claimant, the optional reservation, and the multi-use flag. -/
structure ClaimCode where
  code : String
  claimedBy : Option String
  reservedFor : Option String
  multi : Bool
deriving DecidableEq

/-- One behaviour requirement (`BehaviorSchema`): a named counter with a
minimum count (the schema enforces `min: 0`, hence `Nat`). -/
structure Behavior where
  shortname : String
  count : Nat
deriving DecidableEq

/-- The fields of `BadgeSchema` that the claim-code and aggregation engines
read or write.  The source uses both `this.id` and `this.shortname` as the
badge identifier (`BadgeInstanceSchema`'s `assertionDefault` hook looks the
instance's `badge` field up by `shortname`, while `award` stores `this.id`
there); the embedding uses the single identifier `shortname` for both. -/
structure Badge where
  shortname : String
  categoryAward : Option String
  categoryRequirement : Int
  categoryWeight : Int
  categories : List String
  behaviors : List Behavior
  claimCodes : List ClaimCode
deriving DecidableEq

/-- `code.trim().replace(/ /g, '-').toLowerCase()` on the character level:
drop surrounding whitespace, turn each space into a hyphen, lowercase. -/
def trimChars (l : List Char) : List Char :=
  ((l.dropWhile Char.isWhitespace).reverse.dropWhile Char.isWhitespace).reverse

/-- Input normalisation used by `getClaimCode` (badge.js line 497). -/
def normalizeCode (code : String) : String :=
  String.mk ((trimChars code.data).map (fun c => Char.toLower (if c = ' ' then '-' else c)))

/-- The `while (idx--)` scan of `getClaimCode`: the *last* entry of the list
whose `code` equals the needle wins (when the tail holds a match it is
taken, otherwise the head is inspected). -/
def findLast? (n : String) : List ClaimCode → Option ClaimCode
  | [] => none
  | c :: rest =>
    if rest.any (fun d => d.code == n) then findLast? n rest
    else if c.code == n then some c else none

/-- Mutating `claim.claimedBy` on the object returned by `getClaimCode`
corresponds to updating the last entry whose `code` matches. -/
def setLast (n : String) (v : Option String) : List ClaimCode → List ClaimCode
  | [] => []
  | c :: rest =>
    if rest.any (fun d => d.code == n) then c :: setLast n v rest
    else if c.code == n then { c with claimedBy := v } :: rest
    else c :: setLast n v rest

/-- `Badge.prototype.getClaimCode` (badge.js lines 495-504). -/
def getClaimCode (b : Badge) (code : String) : Option ClaimCode :=
  findLast? (normalizeCode code) b.claimCodes

/-- The guard of `redeemClaimCode` (badge.js line 535):
`!claim.multi && claim.claimedBy && claim.claimedBy !== email`. -/
def redeemBlocked (claim : ClaimCode) (email : String) : Bool :=
  !claim.multi && strTruthy claim.claimedBy && !(claim.claimedBy == some email)

/-- `Badge.prototype.redeemClaimCode` (badge.js lines 531-539).  Returns the
updated badge together with the JS return value (`null`/`false`/`true`
becomes `none`/`some false`/`some true`). -/
def redeemClaimCode (b : Badge) (code email : String) : Badge × Option Bool :=
  match getClaimCode b code with
  | none => (b, none)
  | some claim =>
    if redeemBlocked claim email then (b, some false)
    else ({ b with claimCodes := setLast (normalizeCode code) (some email) b.claimCodes },
          some true)

/-- `Badge.prototype.releaseClaimCode` (badge.js lines 547-551).  The source
dereferences `getClaimCode`'s result unconditionally; when no code matches
this throws a `TypeError`, modelled as `none`. -/
def releaseClaimCode (b : Badge) (code : String) : Option (Badge × Bool) :=
  match getClaimCode b code with
  | none => none
  | some _ =>
      some ({ b with claimCodes := setLast (normalizeCode code) none b.claimCodes }, true)

/-- `Badge.prototype.claimCodeIsClaimed` (badge.js lines 524-529). -/
def claimCodeIsClaimed (b : Badge) (code : String) : Option Bool :=
  match getClaimCode b code with
  | none => none
  | some claim => some (strTruthy claim.claimedBy && !claim.multi)

/-- A user's behaviour-credit tally (`user.credit`), a JS object mapping
behaviour shortnames to counts; absent keys are `undefined`. -/
structure User where
  credit : List (String × Nat)
deriving DecidableEq

/-- Lookup of `user.credit[name]`: the first binding wins (a JS object has
one binding per key). -/
def lookupCredit (u : User) (name : String) : Option Nat :=
  match u.credit.find? (fun p => p.1 == name) with
  | some p => some p.2
  | none => none

/-- The per-behaviour test of `earnableBy`: `user.credit[name] >= minimum`,
which is `false` when the entry is missing (JS `undefined >= m` is false
for every `m`). -/
def behaviorMet (u : User) (behavior : Behavior) : Bool :=
  match lookupCredit u behavior.shortname with
  | some c => decide (behavior.count ≤ c)
  | none => false

/-- `Badge.prototype.earnableBy` (badge.js lines 553-561): map each
behaviour to its credit test and fold with `&&` starting from `true`. -/
def earnableBy (b : Badge) (u : User) : Bool :=
  (b.behaviors.map (behaviorMet u)).foldl (fun result value => result && value) true

/-- `Badge.prototype.creditsUntilAward` (badge.js lines 664-672): for each
behaviour whose credit (`user.credit[name] || 0`) is below the threshold,
record the remaining gap. -/
def creditsUntilAward (b : Badge) (u : User) : List (String × Nat) :=
  b.behaviors.foldl (fun result behavior =>
    let userCredits := (lookupCredit u behavior.shortname).getD 0
    if userCredits < behavior.count then
      result ++ [(behavior.shortname, behavior.count - userCredits)]
    else result) []

/-- The `normalizeCategoryInfo` pre-validate hook (badge.js lines 328-336). -/
def normalizeCategoryInfo (b : Badge) : Badge :=
  if strTruthy b.categoryAward then
    { b with categories := [], categoryWeight := 0 }
  else
    { b with categoryRequirement := 0 }

/-- The capstone/contributor exclusivity invariant stated by the spec: a
capstone (truthy `categoryAward`) has weight 0 and no category tags, a
non-capstone has requirement 0; consequently weight and requirement are
never both nonzero. -/
def categoryExclusive (b : Badge) : Bool :=
  (if strTruthy b.categoryAward then
    b.categoryWeight == 0 && b.categories.isEmpty
   else b.categoryRequirement == 0)
  && (b.categoryWeight == 0 || b.categoryRequirement == 0)

/-! ## `addClaimCodes` and `generateClaimCodes`

`Badge.getAllClaimCodes` scans every badge in the store; for the claim-code
operations the store is modelled as the codes held by the *other* badges
(fixed during one operation) together with the subject badge, so the global
namespace is `otherCodes ++ b.claimCodes.map code` — only membership in
this list is ever consulted. -/

/-- `Badge.getAllClaimCodes` (badge.js lines 365-377), split into the other
badges' codes and the subject badge's own codes. -/
def getAllClaimCodes (otherCodes : List String) (b : Badge) : List String :=
  otherCodes ++ b.claimCodes.map (fun c => c.code)

/-- `options.limit || Infinity` (badge.js line 418): an absent limit *and a
limit of `0`* (both falsy) mean no limit, modelled as `none`. -/
def jsOrInfinity : Option Nat → Option Nat
  | none => none
  | some 0 => none
  | some (n + 1) => some (n + 1)

/-- `accepted.length >= limit` against an `Option`al (possibly infinite)
limit. -/
def limitReached : Option Nat → Nat → Bool
  | none, _ => false
  | some n, k => decide (n ≤ k)

/-- `_.uniq`: drop duplicates, keeping the first occurrence of each code. -/
def uniqFirst : List String → List String → List String
  | [], _ => []
  | c :: rest, seen =>
    if seen.contains c then uniqFirst rest seen
    else c :: uniqFirst rest (c :: seen)

/-- The `codes.forEach` accept/reject loop of `addClaimCodes` (badge.js
lines 426-430): a candidate already in `existing`, or arriving once
`acceptedSoFar` has reached the limit, is rejected; all others are
accepted.  Both output lists preserve the input order. -/
def splitCodes (existing : List String) (limit : Option Nat) (acceptedSoFar : Nat) :
    List String → List String × List String
  | [] => ([], [])
  | c :: rest =>
    if existing.contains c || limitReached limit acceptedSoFar then
      ((splitCodes existing limit acceptedSoFar rest).1,
       c :: (splitCodes existing limit acceptedSoFar rest).2)
    else
      (c :: (splitCodes existing limit (acceptedSoFar + 1) rest).1,
       (splitCodes existing limit (acceptedSoFar + 1) rest).2)

/-- The claim-code record pushed for each accepted code (badge.js lines
435-441). -/
def mkClaim (multi : Bool) (reservedFor : Option String) (code : String) : ClaimCode :=
  { code := code, claimedBy := none, reservedFor := reservedFor, multi := multi }

/-- The successful result of `addClaimCodes`: the saved badge and the two
ordered code lists handed to the callback. -/
structure AddResult where
  badge : Badge
  accepted : List String
  rejected : List String
deriving DecidableEq

/-- `Badge.prototype.addClaimCodes` (badge.js lines 407-448).  The
`reservedFor`-with-several-codes case throws synchronously (`Except.error`)
before anything is touched; otherwise the candidates (deduplicated unless
`alreadyClean`) are split against the global namespace and the accepted
ones appended to the badge. -/
def addClaimCodes (otherCodes : List String) (b : Badge) (codes : List String)
    (limit : Option Nat) (multi : Bool) (reservedFor : Option String)
    (alreadyClean : Bool) : Except String AddResult :=
  if strTruthy reservedFor && codes.length != 1 then
    .error "only one code can be reserved for the same email"
  else
    let cleaned := if alreadyClean then codes else uniqFirst codes []
    let existing := getAllClaimCodes otherCodes b
    let split := splitCodes existing (jsOrInfinity limit) 0 cleaned
    .ok { badge := { b with claimCodes := b.claimCodes ++ split.1.map (mkClaim multi reservedFor) },
          accepted := split.1, rejected := split.2 }

/-- The accepted list of an `addClaimCodes` call (empty on the thrown
error, which never reaches the callback). -/
def acceptedOf : Except String AddResult → List String
  | .ok r => r.accepted
  | .error _ => []

/-- The rejected list of an `addClaimCodes` call. -/
def rejectedOf : Except String AddResult → List String
  | .ok r => r.rejected
  | .error _ => []

/-- The loop state of `generateClaimCodes`: the badge accumulating saved
claim codes and the `accepted` array of generated codes so far. -/
structure GenS where
  badge : Badge
  accepted : List String
deriving DecidableEq

/-- One iteration of the `async.until` body of `generateClaimCodes`
(badge.js lines 475-488): ask the generator for `count - accepted.length`
phrases and feed them to `addClaimCodes` with `alreadyClean` asserted and
`limit` set to the number still needed.  The generator is modelled as a
function of the round number and the requested count. -/
def genStep (gen : Nat → Nat → List String) (reservedFor : Option String) (count : Nat)
    (otherCodes : List String) (round : Nat) (s : GenS) : Except String GenS :=
  let numLeft := count - s.accepted.length
  let phrases := gen round numLeft
  match addClaimCodes otherCodes s.badge phrases (some numLeft) false reservedFor true with
  | .error e => .error e
  | .ok r => .ok { badge := r.badge, accepted := s.accepted ++ r.accepted }

/-- The `async.until` loop of `generateClaimCodes` (badge.js lines
473-492): the test `accepted.length == count` runs before every iteration;
the source has no retry budget, so the embedding adds explicit `fuel` and
returns `none` when the loop is still running after `fuel` iterations. -/
def genLoop (gen : Nat → Nat → List String) (reservedFor : Option String) (count : Nat)
    (otherCodes : List String) : Nat → Nat → GenS → Option (Except String GenS)
  | fuel, round, s =>
    if s.accepted.length == count then some (.ok s)
    else
      match fuel with
      | 0 => none
      | fuel' + 1 =>
        match genStep gen reservedFor count otherCodes round s with
        | .error e => some (.error e)
        | .ok s' => genLoop gen reservedFor count otherCodes fuel' (round + 1) s'

/-- `Badge.prototype.generateClaimCodes` (badge.js lines 465-493): a truthy
`reservedFor` forces `count = 1`; the loop starts with an empty `accepted`
array. -/
def generateClaimCodes (gen : Nat → Nat → List String) (count : Nat)
    (reservedFor : Option String) (otherCodes : List String) (b : Badge)
    (fuel : Nat) : Option (Except String GenS) :=
  let count' := if strTruthy reservedFor then 1 else count
  genLoop gen reservedFor count' otherCodes fuel 0 { badge := b, accepted := [] }

/-! ## The award engine

`Badge.prototype.award` creates a `BadgeInstance`, converts duplicate-key
store errors into a success no-op, and — for category contributors —
cascades capstone awards.  The document store becomes an explicit `Store`
value (badges, instances with a unique `userBadgeKey` index, and a log of
the `sendEmail` branches taken, the source's email code being a TODO
`console.log`). -/

/-- The fields of `BadgeInstanceSchema` the engine reads:: the user, the
badge identifier, and the unique key set by the `userBadgeKeyDefault`
pre-validate hook (`user + '.' + badge`). -/
structure BadgeInstance where
  user : String
  badge : String
  userBadgeKey : String
deriving DecidableEq

/-- The document store: all badges, all badge instances, and the log of
fresh awards whose `sendEmail` branch ran. -/
structure Store where
  badges : List Badge
  instances : List BadgeInstance
  emailLog : List String
deriving DecidableEq

/-- The instance built by `award` (badge.js lines 589-592) after the
`userBadgeKeyDefault` hook has filled in the key. -/
def mkInstance (email : String) (b : Badge) : BadgeInstance :=
  { user := email, badge := b.shortname, userBadgeKey := email ++ "." ++ b.shortname }

/-- `instance.save`: the store enforces the unique index on `userBadgeKey`
(`BadgeInstanceSchema`, lines 44-48) and reports a duplicate with mongo
error code 11000. -/
def saveInstance (store : Store) (inst : BadgeInstance) : Except Nat Store :=
  if store.instances.any (fun j => j.userBadgeKey == inst.userBadgeKey) then
    .error 11000
  else
    .ok { store with instances := store.instances ++ [inst] }

/-- `BadgeInstance.userHasBadge` (badge-instance.js lines 101-107): a
lookup of the key `user + '.' + shortname`. -/
def userHasBadge (store : Store) (user shortname : String) : Bool :=
  store.instances.any (fun j => j.userBadgeKey == user ++ "." ++ shortname)

/-- Modelled from the spec: `BadgeInstance.findByCategory` (called at
badge.js line 621, defined outside `src/`) — the user's badge instances
populated with their badges, restricted to "all owned badges tagging that
category", used to "compute the user's total weighted score". -/
def findByCategory (store : Store) (email category : String) : List Badge :=
  (store.instances.filter (fun i => i.user == email)).filterMap (fun i =>
    match store.badges.find? (fun b => b.shortname == i.badge) with
    | some b => if b.categories.contains category then some b else none
    | none => none)

/-- The `filterByScore` reduction (badge.js lines 622-625): the sum of the
`categoryWeight` of the user's badges tagging the category. -/
def categoryScore (store : Store) (email category : String) : Int :=
  ((findByCategory store email category).map (fun b => b.categoryWeight)).foldl
    (fun sum w => sum + w) 0

/-- `getCategoryBadges` (badge.js lines 616-619): `Badge.find({categoryAward:
category})`. -/
def capstonesFor (store : Store) (category : String) : List Badge :=
  store.badges.filter (fun bd => bd.categoryAward == some category)

/-- The per-category waterfall of `award` (badge.js lines 615-639): fetch
the capstones for the category, keep those whose `categoryRequirement` is
met by the user's score (`filterByScore`), and drop those the user already
holds (`filterByOwned`). -/
def eligibleCapstones (store : Store) (email category : String) : List Badge :=
  ((capstonesFor store category).filter
      (fun bd => decide (bd.categoryRequirement ≤ categoryScore store email category))).filter
    (fun bd => !userHasBadge store email bd.shortname)

/-- A value occupying one of the two result slots of the `award` callback:
JS `undefined`, a single `BadgeInstance`, or an array of such values. -/
inductive JsArg where
  | undef : JsArg
  | inst : BadgeInstance → JsArg
  | arr : List JsArg → JsArg

/-- `awardBadges` (badge.js lines 640-643): `async.map` of `award` with
`{user: email, sendEmail: true}` over the eligible capstones, collecting
each call's second callback argument; an error aborts the cascade. -/
def awardListWith (awardFn : Store → Badge → Option (Except Nat (Store × JsArg × JsArg))) :
    Store → List Badge → Option (Except Nat (Store × List JsArg))
  | store, [] => some (.ok (store, []))
  | store, bd :: rest =>
    match awardFn store bd with
    | none => none
    | some (.error e) => some (.error e)
    | some (.ok (store1, a2, _)) =>
      match awardListWith awardFn store1 rest with
      | none => none
      | some (.error e) => some (.error e)
      | some (.ok (store2, results)) => some (.ok (store2, a2 :: results))

/-- `async.concatSeries` over the badge's categories (badge.js lines
614-645): per category, award the eligible capstones and concatenate the
per-category result arrays. -/
def cascadeWith (awardFn : Store → Badge → Option (Except Nat (Store × JsArg × JsArg))) :
    Store → String → List String → Option (Except Nat (Store × List JsArg))
  | store, _, [] => some (.ok (store, []))
  | store, email, category :: rest =>
    match awardListWith awardFn store (eligibleCapstones store email category) with
    | none => none
    | some (.error e) => some (.error e)
    | some (.ok (store1, results)) =>
      match cascadeWith awardFn store1 email rest with
      | none => none
      | some (.error e) => some (.error e)
      | some (.ok (store2, more)) => some (.ok (store2, results ++ more))

/-- The `options.sendEmail` branch of `award` (badge.js lines 603-606):
the email code itself is an unwritten TODO `console.log`, so the embedding
records the key of the instance the branch ran for. -/
def sendEmailLog (sendEmail : Bool) (store : Store) (inst : BadgeInstance) : Store :=
  if sendEmail then { store with emailLog := store.emailLog ++ [inst.userBadgeKey] }
  else store

/-- `Badge.prototype.award` (badge.js lines 580-650), fuelled for the
recursive cascade.  The result is `none` on fuel exhaustion, otherwise the
callback's arguments: `.error code` for `callback(err)`,
`.ok (store, a2, a3)` for `callback(null, a2, a3)` — in particular the
duplicate-key no-op `callback()` is `.ok (store, .undef, .undef)`, the
plain path is `callback(null, instance, [])`, and the category path is the
source's `callback(null, instances, instances)`. -/
def award : Nat → Store → Badge → String → Bool → Option (Except Nat (Store × JsArg × JsArg))
  | 0, _, _, _, _ => none
  | fuel + 1, store, b, email, sendEmail =>
    match saveInstance store (mkInstance email b) with
    | .error code =>
      if code == 11000 then some (.ok (store, .undef, .undef))
      else some (.error code)
    | .ok store1 =>
      if !(!(strTruthy b.categoryAward) && !(b.categoryWeight == 0)) then
        some (.ok (sendEmailLog sendEmail store1 (mkInstance email b),
                   .inst (mkInstance email b), .arr []))
      else
        match cascadeWith (fun st bd => award fuel st bd email true)
            (sendEmailLog sendEmail store1 (mkInstance email b)) email b.categories with
        | none => none
        | some (.error e) => some (.error e)
        | some (.ok (store3, results)) => some (.ok (store3, .arr results, .arr results))

/-! ## Concrete fixtures and auxiliary definitions used by the theorems -/

/-- A badge with no claim codes, no behaviours and no category data. -/
def plainBadge : Badge :=
  { shortname := "plain", categoryAward := none, categoryRequirement := 0,
    categoryWeight := 0, categories := [], behaviors := [], claimCodes := [] }

/-- The single-use claim code `my-code`, already claimed by alice. -/
def aliceClaim : ClaimCode :=
  { code := "my-code", claimedBy := some "alice@example.org",
    reservedFor := none, multi := false }

/-- A badge holding one single-use claim code already claimed by alice. -/
def claimedBadge : Badge :=
  { shortname := "claimed", categoryAward := none, categoryRequirement := 0,
    categoryWeight := 0, categories := [], behaviors := [],
    claimCodes := [aliceClaim] }

/-- The per-behaviour gap of `creditsUntilAward`: `some` entry when
`(user.credit[name] || 0)` is below the threshold. -/
def behaviorGap (u : User) (behavior : Behavior) : Option (String × Nat) :=
  let userCredits := (lookupCredit u behavior.shortname).getD 0
  if userCredits < behavior.count then
    some (behavior.shortname, behavior.count - userCredits)
  else none

/-- A badge whose sole behaviour has the schema-permitted threshold 0. -/
def zeroBadge : Badge :=
  { shortname := "zero", categoryAward := none, categoryRequirement := 0,
    categoryWeight := 0, categories := [], behaviors := [{ shortname := "act", count := 0 }],
    claimCodes := [] }

/-- A user with an empty credit tally. -/
def emptyUser : User := { credit := [] }

/-- The loop invariant of `generateClaimCodes` relative to the initial
badge: the generated codes are pairwise distinct, disjoint from every code
pre-existing in the store, and the badge has accumulated exactly the
accepted codes. -/
def GenInv (otherCodes : List String) (b0 : Badge) (s : GenS) : Prop :=
  s.accepted.Nodup ∧
  (∀ c ∈ s.accepted, c ∉ getAllClaimCodes otherCodes b0) ∧
  s.badge.claimCodes = b0.claimCodes ++ s.accepted.map (mkClaim false none)

/-- A generator that always returns the single already-taken code `x`. -/
def collideGen : Nat → Nat → List String := fun _ _ => ["x"]

/-- The initial loop state for a `generateClaimCodes(1)` call on a store
already holding the code `x` on some other badge. -/
def collideS : GenS := { badge := plainBadge, accepted := [] }

/-- A generator that always proposes the fresh code `fresh-code`. -/
def freshGen : Nat → Nat → List String := fun _ _ => ["fresh-code"]

/-- The state `generateClaimCodes(1)` reaches with `freshGen` on an empty
store. -/
def freshS : GenS :=
  { badge := { shortname := "plain", categoryAward := none, categoryRequirement := 0,
               categoryWeight := 0, categories := [], behaviors := [],
               claimCodes := [mkClaim false none "fresh-code"] },
    accepted := ["fresh-code"] }

/-- How many stored instances carry the given `userBadgeKey`. -/
def countKey (store : Store) (k : String) : Nat :=
  store.instances.countP (fun j => j.userBadgeKey == k)

/-- Badge A of the spec scenario: a category contributor with weight 5
tagging category `x-cat`. -/
def badgeA : Badge :=
  { shortname := "badge-a", categoryAward := none, categoryRequirement := 0,
    categoryWeight := 5, categories := ["x-cat"], behaviors := [], claimCodes := [] }

/-- Badge B of the spec scenario: the capstone for `x-cat` with
requirement 5. -/
def badgeB : Badge :=
  { shortname := "badge-b", categoryAward := some "x-cat", categoryRequirement := 5,
    categoryWeight := 0, categories := [], behaviors := [], claimCodes := [] }

/-- The scenario store: both badges, no instances yet. -/
def cascadeStore : Store := { badges := [badgeA, badgeB], instances := [], emailLog := [] }

/-- The instance the direct award of A creates for user U. -/
def instA6 : BadgeInstance :=
  { user := "u@example.org", badge := "badge-a", userBadgeKey := "u@example.org.badge-a" }

/-- The instance the cascaded award of B creates for user U. -/
def instB6 : BadgeInstance :=
  { user := "u@example.org", badge := "badge-b", userBadgeKey := "u@example.org.badge-b" }

/-- The store after awarding A to U: both instances persisted, and the
`sendEmail` branch ran for the cascaded award of B only. -/
def cascadeStoreF : Store :=
  { badges := [badgeA, badgeB], instances := [instA6, instB6],
    emailLog := ["u@example.org.badge-b"] }

/-- The store as the cascade sees it, right after A's instance was saved. -/
def cascadeStoreMid : Store :=
  { badges := [badgeA, badgeB], instances := [instA6], emailLog := [] }

/-! ## Lemmas about the last-match scan and its update -/

theorem setLast_any {n : String} {v : Option String} :
    ∀ {l : List ClaimCode},
      (setLast n v l).any (fun d => d.code == n) = l.any (fun d => d.code == n) := by
  intro l
  induction l with
  | nil => rfl
  | cons c rest ih =>
    rw [setLast]
    cases ha : rest.any (fun d => d.code == n) with
    | true => rw [if_pos rfl, List.any_cons, List.any_cons, ih, ha]
    | false =>
      rw [if_neg (by simp [ha])]
      cases hc : c.code == n with
      | true => rw [if_pos rfl]; rfl
      | false => rw [if_neg (by simp), List.any_cons, List.any_cons, ih]

theorem findLast?_eq_none_iff {n : String} :
    ∀ {l : List ClaimCode}, findLast? n l = none ↔ l.any (fun d => d.code == n) = false := by
  intro l
  induction l with
  | nil => simp [findLast?]
  | cons c rest ih =>
    rw [findLast?]
    cases ha : rest.any (fun d => d.code == n) with
    | true => simp [ha, ih]
    | false => cases hc : c.code == n <;> simp [hc, ha]

theorem setLast_of_no_match {n : String} {v : Option String} :
    ∀ {l : List ClaimCode}, l.any (fun d => d.code == n) = false → setLast n v l = l := by
  intro l
  induction l with
  | nil => intro _; rfl
  | cons c rest ih =>
    intro h
    rw [List.any_cons, Bool.or_eq_false_iff] at h
    simp [setLast, h.1, h.2, ih h.2]

theorem findLast?_setLast {n : String} {v : Option String} :
    ∀ {l : List ClaimCode} {cl : ClaimCode}, findLast? n l = some cl →
      findLast? n (setLast n v l) = some { cl with claimedBy := v } := by
  intro l
  induction l with
  | nil => intro cl h; exact Option.noConfusion h
  | cons c rest ih =>
    intro cl h
    rw [findLast?] at h
    cases ha : rest.any (fun d => d.code == n) with
    | true =>
      rw [ha, if_pos rfl] at h
      rw [setLast, if_pos ha, findLast?, setLast_any, ha, if_pos rfl]
      exact ih h
    | false =>
      rw [ha, if_neg (by simp)] at h
      cases hc : c.code == n with
      | false => rw [hc, if_neg (by simp)] at h; exact Option.noConfusion h
      | true =>
        rw [hc, if_pos rfl] at h
        cases h
        rw [setLast, if_neg (by simp [ha]), if_pos hc, findLast?, ha, if_neg (by simp)]
        have hc2 : (({ c with claimedBy := v } : ClaimCode).code == n) = true := hc
        rw [hc2, if_pos rfl]

theorem setLast_self {n : String} {v : Option String} :
    ∀ {l : List ClaimCode} {cl : ClaimCode}, findLast? n l = some cl → cl.claimedBy = v →
      setLast n v l = l := by
  intro l
  induction l with
  | nil => intro cl h _; exact Option.noConfusion h
  | cons c rest ih =>
    intro cl h hv
    rw [findLast?] at h
    cases ha : rest.any (fun d => d.code == n) with
    | true =>
      rw [ha, if_pos rfl] at h
      rw [setLast, if_pos ha, ih h hv]
    | false =>
      rw [ha, if_neg (by simp)] at h
      cases hc : c.code == n with
      | false => rw [hc, if_neg (by simp)] at h; exact Option.noConfusion h
      | true =>
        rw [hc, if_pos rfl] at h
        cases h
        rw [setLast, if_neg (by simp [ha]), if_pos hc, ← hv]

/-! ## Concrete fixtures used by witnesses and counterexamples -/

/-! ## C4 — `redeemClaimCode` -/

/-- C4: `redeemClaimCode(c, u)` returns `none` when no stored code matches
the normalisation of `c`; returns `false` leaving the badge unchanged when
the match is single-use and `claimedBy` is set to a different user; and
otherwise sets `claimedBy = u` and returns `true` — a repeat redemption by
the same user also returns `true` and leaves the state unchanged after the
first. -/
theorem claim4_redeem (b : Badge) (code email : String) :
    (getClaimCode b code = none → redeemClaimCode b code email = (b, none)) ∧
    (∀ cl v, getClaimCode b code = some cl → cl.multi = false → cl.claimedBy = some v →
      v ≠ "" → v ≠ email → redeemClaimCode b code email = (b, some false)) ∧
    (∀ cl, getClaimCode b code = some cl → redeemBlocked cl email = false →
      (redeemClaimCode b code email).2 = some true ∧
      getClaimCode (redeemClaimCode b code email).1 code =
        some { cl with claimedBy := some email }) ∧
    (∀ cl, getClaimCode b code = some cl → redeemBlocked cl email = false →
      redeemClaimCode (redeemClaimCode b code email).1 code email =
        ((redeemClaimCode b code email).1, some true)) := by
  refine ⟨fun h => by simp [redeemClaimCode, h], ?_, ?_, ?_⟩
  · intro cl v hcl hm hcb hv1 hv2
    have hb : redeemBlocked cl email = true := by
      simp [redeemBlocked, hm, hcb, strTruthy, hv1, hv2]
    simp [redeemClaimCode, hcl, hb]
  · intro cl hcl hb
    have hupd := @findLast?_setLast (normalizeCode code) (some email) b.claimCodes cl hcl
    constructor
    · simp [redeemClaimCode, hcl, hb]
    · simp only [redeemClaimCode, hcl, hb, Bool.false_eq_true, if_false]
      exact hupd
  · intro cl hcl hb
    have hcl' : findLast? (normalizeCode code) b.claimCodes = some cl := hcl
    have hupd := @findLast?_setLast (normalizeCode code) (some email) b.claimCodes cl hcl
    have hb2 : redeemBlocked { cl with claimedBy := some email } email = false := by
      simp [redeemBlocked]
    simp only [redeemClaimCode, getClaimCode, hcl', hb, Bool.false_eq_true, if_false, hupd,
      hb2]
    rw [@setLast_self (normalizeCode code) (some email)
      (setLast (normalizeCode code) (some email) b.claimCodes)
      { cl with claimedBy := some email } hupd rfl]

/-- Witness for C4 at concrete badges: an unknown code yields `none`; bob
redeeming alice's single-use code yields `false` and no change; alice
redeeming her own code again yields `true` with the state fixed. -/
theorem claim4_witness :
    redeemClaimCode plainBadge "zzz" "bob@example.org" = (plainBadge, none) ∧
    redeemClaimCode claimedBadge "my-code" "bob@example.org" = (claimedBadge, some false) ∧
    (redeemClaimCode claimedBadge "my-code" "alice@example.org").2 = some true ∧
    redeemClaimCode (redeemClaimCode claimedBadge "my-code" "alice@example.org").1
        "my-code" "alice@example.org" =
      ((redeemClaimCode claimedBadge "my-code" "alice@example.org").1, some true) :=
  ⟨(claim4_redeem plainBadge "zzz" "bob@example.org").1 rfl,
   (claim4_redeem claimedBadge "my-code" "bob@example.org").2.1 aliceClaim
     "alice@example.org" rfl rfl rfl (by decide) (by decide),
   ((claim4_redeem claimedBadge "my-code" "alice@example.org").2.2.1 aliceClaim rfl rfl).1,
   (claim4_redeem claimedBadge "my-code" "alice@example.org").2.2.2 aliceClaim rfl rfl⟩

/-! ## C10 — `releaseClaimCode` -/

/-- C10: `releaseClaimCode(code)` requires a stored code matching the
normalised input; then it clears `claimedBy` and returns `true`.  With no
match the source dereferences the `null` returned by `getClaimCode` and
throws (`none` here), instead of returning `none` as a value the way the
other code lookups do. -/
theorem claim10_release (b : Badge) (code : String) :
    (getClaimCode b code = none → releaseClaimCode b code = none) ∧
    (∀ cl, getClaimCode b code = some cl →
      releaseClaimCode b code =
        some ({ b with claimCodes := setLast (normalizeCode code) none b.claimCodes }, true) ∧
      getClaimCode { b with claimCodes := setLast (normalizeCode code) none b.claimCodes }
          code = some { cl with claimedBy := none }) := by
  constructor
  · intro h; simp [releaseClaimCode, h]
  · intro cl hcl
    exact ⟨by simp [releaseClaimCode, hcl],
           @findLast?_setLast (normalizeCode code) none b.claimCodes cl hcl⟩

/-- Witness for C10: releasing alice's claimed code clears it; releasing an
unknown code crashes (`none`). -/
theorem claim10_witness :
    releaseClaimCode plainBadge "zzz" = none ∧
    releaseClaimCode claimedBadge "my-code" =
      some ({ claimedBadge with
                claimCodes := setLast (normalizeCode "my-code") none claimedBadge.claimCodes },
            true) ∧
    getClaimCode { claimedBadge with
                     claimCodes := setLast (normalizeCode "my-code") none
                       claimedBadge.claimCodes } "my-code" =
      some { code := "my-code", claimedBy := none, reservedFor := none, multi := false } :=
  ⟨(claim10_release plainBadge "zzz").1 rfl,
   ((claim10_release claimedBadge "my-code").2 aliceClaim rfl).1,
   ((claim10_release claimedBadge "my-code").2 aliceClaim rfl).2⟩

/-! ## C8 — capstone/contributor exclusivity after validation -/

/-- C8: every badge that has passed the `normalizeCategoryInfo`
pre-validate hook satisfies the exclusivity invariant — a truthy
`categoryAward` forces `categoryWeight = 0` and empty `categories`, an
absent one forces `categoryRequirement = 0`, so weight and requirement are
never both nonzero. -/
theorem claim8_category_exclusive (b : Badge) :
    categoryExclusive (normalizeCategoryInfo b) = true := by
  rw [normalizeCategoryInfo]
  cases ha : strTruthy b.categoryAward with
  | true =>
    rw [if_pos rfl]
    simp [categoryExclusive, ha]
  | false =>
    rw [if_neg (by simp)]
    simp [categoryExclusive, ha]

/-! ## C7 — `reservedFor` with several codes -/

/-- C7: whenever `reservedFor` is supplied (a truthy string) and the number
of codes is not exactly one, `addClaimCodes` throws the InvalidArgument
error synchronously — no result badge is produced, so no code is added. -/
theorem claim7_reservedFor_invalid (otherCodes : List String) (b : Badge)
    (codes : List String) (limit : Option Nat) (multi : Bool) (r : String)
    (alreadyClean : Bool) (hr : r ≠ "") (hlen : codes.length ≠ 1) :
    addClaimCodes otherCodes b codes limit multi (some r) alreadyClean =
      .error "only one code can be reserved for the same email" := by
  rw [addClaimCodes, if_pos]
  rw [strTruthy]
  simp [hr, hlen]

/-- Witness for C7: reserving two codes for bob fails. -/
theorem claim7_witness :
    addClaimCodes [] plainBadge ["a", "b"] none false (some "bob@example.org") false =
      .error "only one code can be reserved for the same email" :=
  claim7_reservedFor_invalid [] plainBadge ["a", "b"] none false "bob@example.org" false
    (by decide) (by decide)

/-! ## C9 — `earnableBy` versus `creditsUntilAward` -/

theorem foldl_and_eq_all (f : Behavior → Bool) :
    ∀ (l : List Behavior) (init : Bool),
      (l.map f).foldl (fun result value => result && value) init = (init && l.all f) := by
  intro l
  induction l with
  | nil => intro init; simp
  | cons c rest ih =>
    intro init
    rw [List.map_cons, List.foldl_cons, ih (init && f c), List.all_cons, Bool.and_assoc]

theorem earnableBy_eq_all (b : Badge) (u : User) :
    earnableBy b u = b.behaviors.all (behaviorMet u) := by
  rw [earnableBy, foldl_and_eq_all (behaviorMet u) b.behaviors true, Bool.true_and]

theorem credits_foldl_eq_filterMap (u : User) :
    ∀ (l : List Behavior) (acc : List (String × Nat)),
      (l.foldl (fun result behavior =>
        let userCredits := (lookupCredit u behavior.shortname).getD 0
        if userCredits < behavior.count then
          result ++ [(behavior.shortname, behavior.count - userCredits)]
        else result) acc) = acc ++ l.filterMap (behaviorGap u) := by
  intro l
  induction l with
  | nil => intro acc; simp
  | cons c rest ih =>
    intro acc
    rw [List.foldl_cons, List.filterMap_cons]
    by_cases hc : (lookupCredit u c.shortname).getD 0 < c.count
    · simp only [behaviorGap, if_pos hc]
      rw [ih, List.append_assoc]
      rfl
    · simp only [behaviorGap, if_neg hc]
      exact ih acc

theorem creditsUntilAward_eq_filterMap (b : Badge) (u : User) :
    creditsUntilAward b u = b.behaviors.filterMap (behaviorGap u) := by
  rw [creditsUntilAward, credits_foldl_eq_filterMap u b.behaviors [], List.nil_append]

theorem behaviorMet_iff (u : User) (behavior : Behavior) :
    behaviorMet u behavior = true ↔
      (behaviorGap u behavior = none ∧
       (lookupCredit u behavior.shortname).isSome = true) := by
  rw [behaviorMet, behaviorGap]
  cases hl : lookupCredit u behavior.shortname with
  | some c =>
    simp only [Option.getD_some, Option.isSome_some, and_true, decide_eq_true_eq]
    by_cases hlt : c < behavior.count
    · rw [if_pos hlt]
      constructor
      · intro h; omega
      · intro h; exact Option.noConfusion h
    · rw [if_neg hlt]
      constructor
      · intro _; rfl
      · intro _; omega
  | none => simp

/-- C9, amended: `earnableBy(user)` is `true` iff `creditsUntilAward(user)`
is empty *and* the credit tally has an entry for every behaviour — a
missing entry always makes `earnableBy` false (JS `undefined >= m`), even
for a threshold of 0 where `creditsUntilAward` records no gap. -/
theorem claim9_amended (b : Badge) (u : User) :
    earnableBy b u = true ↔
      (creditsUntilAward b u = [] ∧
       ∀ behavior ∈ b.behaviors, (lookupCredit u behavior.shortname).isSome = true) := by
  rw [earnableBy_eq_all, creditsUntilAward_eq_filterMap, List.all_eq_true,
    List.filterMap_eq_nil_iff]
  constructor
  · intro h
    exact ⟨fun x hx => ((behaviorMet_iff u x).mp (h x hx)).1,
           fun x hx => ((behaviorMet_iff u x).mp (h x hx)).2⟩
  · intro h x hx
    exact (behaviorMet_iff u x).mpr ⟨h.1 x hx, h.2 x hx⟩

/-- C9 counterexample: for a behaviour with threshold 0 and no tally entry,
`earnableBy` is `false` (JS `undefined >= 0` is false) while
`creditsUntilAward` is empty, so the claimed equivalence fails. -/
theorem claim9_counterexample :
    ¬(earnableBy zeroBadge emptyUser = true ↔ creditsUntilAward zeroBadge emptyUser = []) := by
  decide

/-- Witness for C9's amended equivalence at a user meeting a positive
threshold. -/
theorem claim9_witness :
    earnableBy { zeroBadge with behaviors := [{ shortname := "act", count := 2 }] }
      { credit := [("act", 3)] } = true :=
  (claim9_amended { zeroBadge with behaviors := [{ shortname := "act", count := 2 }] }
    { credit := [("act", 3)] }).mpr ⟨by decide, by decide⟩

/-! ## C1 — `addClaimCodes` and the `limit` option -/

theorem splitCodes_fst_some (existing : List String) (n : Nat) :
    ∀ (codes : List String) (k : Nat),
      (splitCodes existing (some n) k codes).1 =
        (codes.filter (fun c => !existing.contains c)).take (n - k) := by
  intro codes
  induction codes with
  | nil => intro k; simp [splitCodes]
  | cons c rest ih =>
    intro k
    rw [splitCodes, List.filter_cons]
    rcases Bool.eq_false_or_eq_true (existing.contains c) with hc | hc
    · have hc2 : c ∈ existing := by simpa using hc
      rw [if_pos (by rw [hc]; rfl)]
      simp [hc2, ih k]
    · have hc2 : c ∉ existing := by simpa using hc
      rcases Bool.eq_false_or_eq_true (limitReached (some n) k) with hlim | hlim
      · rw [if_pos (by rw [hc, hlim]; rfl)]
        have hk : n ≤ k := by rw [limitReached] at hlim; exact of_decide_eq_true hlim
        have h0 : n - k = 0 := by omega
        simp [h0, ih k]
      · rw [if_neg (by rw [hc, hlim]; simp)]
        have hk : ¬(n ≤ k) := by rw [limitReached] at hlim; exact of_decide_eq_false hlim
        have hs : n - k = (n - (k + 1)) + 1 := by omega
        simp [hc2, hs, List.take_succ_cons, ih (k + 1)]

theorem splitCodes_fst_none (existing : List String) :
    ∀ (codes : List String) (k : Nat),
      (splitCodes existing none k codes).1 =
        codes.filter (fun c => !existing.contains c) := by
  intro codes
  induction codes with
  | nil => intro k; simp [splitCodes]
  | cons c rest ih =>
    intro k
    rw [splitCodes, List.filter_cons]
    rcases Bool.eq_false_or_eq_true (existing.contains c) with hc | hc
    · have hc2 : c ∈ existing := by simpa using hc
      rw [if_pos (by rw [hc]; rfl)]
      simp [hc2, ih k]
    · have hc2 : c ∉ existing := by simpa using hc
      rw [if_neg (by rw [hc]; simp [limitReached])]
      simp [hc2, ih (k + 1)]

theorem splitCodes_length (existing : List String) (limit : Option Nat) :
    ∀ (codes : List String) (k : Nat),
      (splitCodes existing limit k codes).1.length +
        (splitCodes existing limit k codes).2.length = codes.length := by
  intro codes
  induction codes with
  | nil => intro k; rfl
  | cons c rest ih =>
    intro k
    rw [splitCodes]
    rcases Bool.eq_false_or_eq_true (existing.contains c || limitReached limit k) with hi | hi
    · rw [if_pos (by rw [hi])]
      simp only [List.length_cons]
      have := ih k
      omega
    · rw [if_neg (by rw [hi]; simp)]
      simp only [List.length_cons]
      have := ih (k + 1)
      omega

/-- C1 counterexample: with no pre-existing codes anywhere,
`addClaimCodes(["a"], limit=0)` *accepts* `"a"` — `options.limit || Infinity`
turns the falsy limit 0 into no limit — where the claim demands
`accepted=[]`, `rejected=["a"]`. -/
theorem claim1_counterexample :
    acceptedOf (addClaimCodes [] plainBadge ["a"] (some 0) false none false) = ["a"] ∧
    rejectedOf (addClaimCodes [] plainBadge ["a"] (some 0) false none false) = [] := by
  constructor <;> rfl

/-- C1, amended: a `limit` of 0 is falsy and means *no* limit, so
`addClaimCodes(["a"], limit=0)` on an empty store accepts `"a"`; for a
positive limit `n` the accepted list is exactly the first `n`
non-colliding candidates in input order — once `n` have been accepted every
further candidate is rejected, and every candidate ends up in exactly one
of the two lists. -/
theorem claim1_amended_limit :
    (acceptedOf (addClaimCodes [] plainBadge ["a"] (some 0) false none false) = ["a"] ∧
     rejectedOf (addClaimCodes [] plainBadge ["a"] (some 0) false none false) = []) ∧
    (∀ (otherCodes : List String) (b : Badge) (codes : List String) (n : Nat) (multi : Bool),
      acceptedOf (addClaimCodes otherCodes b codes (some (n + 1)) multi none true) =
        (codes.filter (fun c => !(getAllClaimCodes otherCodes b).contains c)).take (n + 1) ∧
      (acceptedOf (addClaimCodes otherCodes b codes (some (n + 1)) multi none true)).length +
        (rejectedOf (addClaimCodes otherCodes b codes (some (n + 1)) multi none true)).length =
        codes.length) := by
  refine ⟨⟨rfl, rfl⟩, ?_⟩
  intro otherCodes b codes n multi
  rw [addClaimCodes, if_neg (by simp [strTruthy])]
  constructor
  · simp [acceptedOf, jsOrInfinity, splitCodes_fst_some]
  · simp [acceptedOf, rejectedOf, jsOrInfinity, splitCodes_length]

/-- Witness for C1's general part: with `"x"` taken and limit 1, only the
first fresh candidate `"y"` is accepted and the later fresh `"z"` is
rejected by the limit. -/
theorem claim1_witness :
    acceptedOf (addClaimCodes ["x"] plainBadge ["x", "y", "z"] (some 1) false none true) =
      ["y"] ∧
    rejectedOf (addClaimCodes ["x"] plainBadge ["x", "y", "z"] (some 1) false none true) =
      ["x", "z"] :=
  ⟨((claim1_amended_limit.2 ["x"] plainBadge ["x", "y", "z"] 0 false).1).trans (by rfl),
   by rfl⟩

/-! ## C3 — `generateClaimCodes` -/

theorem splitCodes_fst_sublist (existing : List String) (m : Nat) (codes : List String) :
    List.Sublist (splitCodes existing (jsOrInfinity (some m)) 0 codes).1
      (codes.filter (fun c => !existing.contains c)) := by
  cases m with
  | zero =>
    rw [jsOrInfinity, splitCodes_fst_none]
  | succ n =>
    rw [jsOrInfinity, splitCodes_fst_some]
    exact List.take_sublist _ _

theorem mkClaim_code (multi : Bool) (reservedFor : Option String) (code : String) :
    (mkClaim multi reservedFor code).code = code := rfl

theorem getAllClaimCodes_inv (otherCodes : List String) (b0 : Badge) (s : GenS)
    (hs : GenInv otherCodes b0 s) :
    getAllClaimCodes otherCodes s.badge =
      getAllClaimCodes otherCodes b0 ++ s.accepted := by
  rw [getAllClaimCodes, getAllClaimCodes, hs.2.2, List.map_append, List.append_assoc]
  congr 1
  congr 1
  rw [List.map_map]
  have hcomp : ((fun c : ClaimCode => c.code) ∘ mkClaim false none) =
      fun c : String => c := funext (fun c => rfl)
  rw [hcomp]
  exact List.map_id' s.accepted

theorem genStep_inv (gen : Nat → Nat → List String) (hgen : ∀ r m, (gen r m).Nodup)
    (count : Nat) (otherCodes : List String) (b0 : Badge) (round : Nat) (s s' : GenS)
    (hs : GenInv otherCodes b0 s)
    (hstep : genStep gen none count otherCodes round s = .ok s') :
    GenInv otherCodes b0 s' := by
  rw [genStep, addClaimCodes, if_neg (by simp [strTruthy])] at hstep
  simp only [Except.ok.injEq] at hstep
  subst hstep
  set m := count - s.accepted.length with hm
  set P := gen round m with hP
  have hsub := splitCodes_fst_sublist (getAllClaimCodes otherCodes s.badge) m P
  set A := (splitCodes (getAllClaimCodes otherCodes s.badge) (jsOrInfinity (some m)) 0 P).1
    with hA
  have hPn : P.Nodup := hgen round m
  have hAn : A.Nodup := hsub.nodup (hPn.filter _)
  have hAmem : ∀ c ∈ A, c ∉ getAllClaimCodes otherCodes s.badge := by
    intro c hc
    have := hsub.subset hc
    rw [List.mem_filter] at this
    simpa using this.2
  have hAmem2 : ∀ c ∈ A, c ∉ getAllClaimCodes otherCodes b0 ∧ c ∉ s.accepted := by
    intro c hc
    have := hAmem c hc
    rw [getAllClaimCodes_inv otherCodes b0 s hs, List.mem_append] at this
    exact ⟨fun h1 => this (Or.inl h1), fun h2 => this (Or.inr h2)⟩
  refine ⟨?_, ?_, ?_⟩
  · exact hs.1.append hAn (fun c hcl hcr => (hAmem2 c hcr).2 hcl)
  · intro c hc
    rcases List.mem_append.mp hc with h | h
    · exact hs.2.1 c h
    · exact (hAmem2 c h).1
  · show s.badge.claimCodes ++ A.map (mkClaim false none) = _
    rw [hs.2.2, List.map_append, List.append_assoc]
    rfl

theorem genLoop_inv (gen : Nat → Nat → List String) (hgen : ∀ r m, (gen r m).Nodup)
    (count : Nat) (otherCodes : List String) (b0 : Badge) :
    ∀ (fuel round : Nat) (s s' : GenS), GenInv otherCodes b0 s →
      genLoop gen none count otherCodes fuel round s = some (.ok s') →
      GenInv otherCodes b0 s' ∧ s'.accepted.length = count := by
  intro fuel
  induction fuel with
  | zero =>
    intro round s s' hs hrun
    rw [genLoop] at hrun
    rcases Bool.eq_false_or_eq_true (s.accepted.length == count) with hd | hd
    · rw [hd, if_pos rfl] at hrun
      simp only [Option.some.injEq, Except.ok.injEq] at hrun
      subst hrun
      exact ⟨hs, eq_of_beq hd⟩
    · rw [hd, if_neg (by simp)] at hrun
      exact Option.noConfusion hrun
  | succ n ih =>
    intro round s s' hs hrun
    rw [genLoop] at hrun
    rcases Bool.eq_false_or_eq_true (s.accepted.length == count) with hd | hd
    · rw [hd, if_pos rfl] at hrun
      simp only [Option.some.injEq, Except.ok.injEq] at hrun
      subst hrun
      exact ⟨hs, eq_of_beq hd⟩
    · rw [hd, if_neg (by simp)] at hrun
      cases hstep : genStep gen none count otherCodes round s with
      | error e =>
        rw [hstep] at hrun
        simp at hrun
      | ok s1 =>
        rw [hstep] at hrun
        exact ih (round + 1) s1 s' (genStep_inv gen hgen count otherCodes b0 round s s1 hs hstep)
          hrun

/-- C3, amended: the retry loop of `generateClaimCodes` carries *no* retry
budget — with a generator producing only colliding codes every iteration
returns to the same state and the loop never finishes; when the loop does
finish (the generator kept producing intra-batch-distinct codes until
`count` were accepted), exactly `count` codes come back, pairwise distinct
and distinct from every pre-existing code in the store. -/
theorem claim3_amended_generate (gen : Nat → Nat → List String) (count : Nat)
    (otherCodes : List String) (b : Badge) (fuel : Nat) (s : GenS)
    (hgen : ∀ r m, (gen r m).Nodup)
    (hrun : generateClaimCodes gen count none otherCodes b fuel = some (.ok s)) :
    s.accepted.length = count ∧ s.accepted.Nodup ∧
      ∀ c ∈ s.accepted, c ∉ getAllClaimCodes otherCodes b := by
  have hrun2 : genLoop gen none count otherCodes fuel 0 { badge := b, accepted := [] } =
      some (.ok s) := hrun
  have h0 : GenInv otherCodes b { badge := b, accepted := [] } :=
    ⟨List.nodup_nil, by simp, by simp⟩
  have h := genLoop_inv gen hgen count otherCodes b fuel 0 _ s h0 hrun2
  exact ⟨h.2, h.1.1, h.1.2.1⟩

theorem collide_loop_stuck :
    ∀ (fuel round : Nat), genLoop collideGen none 1 ["x"] fuel round collideS = none := by
  intro fuel
  induction fuel with
  | zero => intro round; rfl
  | succ n ih =>
    intro round
    rw [genLoop]
    have hstep : genStep collideGen none 1 ["x"] round collideS = .ok collideS := rfl
    rw [hstep]
    have hd : (collideS.accepted.length == 1) = false := rfl
    rw [hd]
    simp only [Bool.false_eq_true, if_false]
    exact ih (round + 1)

/-- C3 counterexample: with the store already holding `x` and a generator
that keeps proposing `x`, `generateClaimCodes(1)` is still running after
1000 iterations, and one loop iteration maps the state to itself with the
termination test false — the loop retries forever, with no bounded retry
budget and no fatal generator-exhaustion condition. -/
theorem claim3_counterexample :
    generateClaimCodes collideGen 1 none ["x"] plainBadge 1000 = none ∧
    genStep collideGen none 1 ["x"] 0 collideS = .ok collideS ∧
    collideS.accepted.length ≠ 1 :=
  ⟨collide_loop_stuck 1000 0, rfl, by decide⟩

/-- Witness for C3's amended theorem: a terminating run with a fresh
generator accepts exactly one duplicate-free code. -/
theorem claim3_witness : freshS.accepted.length = 1 ∧ freshS.accepted.Nodup :=
  ⟨(claim3_amended_generate freshGen 1 [] plainBadge 2 freshS
      (fun _ _ => (by decide : (["fresh-code"] : List String).Nodup)) rfl).1,
   (claim3_amended_generate freshGen 1 [] plainBadge 2 freshS
      (fun _ _ => (by decide : (["fresh-code"] : List String).Nodup)) rfl).2.1⟩

/-! ## C5 — the duplicate-key no-op of `award` -/

theorem any_false_of_countKey_zero {store : Store} {k : String}
    (h : countKey store k = 0) :
    store.instances.any (fun j => j.userBadgeKey == k) = false := by
  rw [countKey, List.countP_eq_zero] at h
  rw [List.any_eq_false]
  intro j hj
  exact fun hk => h j hj hk

theorem any_true_of_countKey_one {store : Store} {k : String}
    (h : countKey store k = 1) :
    store.instances.any (fun j => j.userBadgeKey == k) = true := by
  rw [List.any_eq_true]
  have hpos : 0 < store.instances.countP (fun j => j.userBadgeKey == k) := by
    rw [show store.instances.countP (fun j => j.userBadgeKey == k) = countKey store k from rfl,
      h]
    exact Nat.one_pos
  rcases List.countP_pos_iff.mp hpos with ⟨j, hj, hk⟩
  exact ⟨j, hj, hk⟩

theorem countKey_mem {store : Store} {k : String} (h1 : countKey store k = 1) :
    ∃ j ∈ store.instances, (j.userBadgeKey == k) = true := by
  have hpos : 0 < store.instances.countP (fun j => j.userBadgeKey == k) := by
    have h2 : store.instances.countP (fun j => j.userBadgeKey == k) = 1 := h1
    omega
  exact List.countP_pos_iff.mp hpos

theorem countKey_save {store store' : Store} {inst : BadgeInstance} {k : String}
    (h : saveInstance store inst = .ok store') (h1 : countKey store k = 1) :
    countKey store' k = 1 := by
  rw [saveInstance] at h
  rcases Bool.eq_false_or_eq_true
      (store.instances.any (fun j => j.userBadgeKey == inst.userBadgeKey)) with ha | ha
  · rw [ha, if_pos rfl] at h
    exact Except.noConfusion h
  · rw [ha, if_neg (by simp)] at h
    simp only [Except.ok.injEq] at h
    subst h
    have hik : (inst.userBadgeKey == k) = false := by
      rcases Bool.eq_false_or_eq_true (inst.userBadgeKey == k) with hik | hik
      · exfalso
        rcases countKey_mem h1 with ⟨j, hj, hjk⟩
        have hany : store.instances.any (fun j => j.userBadgeKey == inst.userBadgeKey) =
            true := by
          rw [List.any_eq_true]
          refine ⟨j, hj, ?_⟩
          rw [eq_of_beq hik]
          exact hjk
        rw [hany] at ha
        exact Bool.noConfusion ha
      · exact hik
    have h2 : store.instances.countP (fun j => j.userBadgeKey == k) = 1 := h1
    show (store.instances ++ [inst]).countP (fun j => j.userBadgeKey == k) = 1
    rw [List.countP_append, h2, List.countP_cons]
    simp [hik]

theorem awardListWith_keep (k : String)
    (awardFn : Store → Badge → Option (Except Nat (Store × JsArg × JsArg)))
    (hA : ∀ st bd st2 a2 a3, awardFn st bd = some (.ok (st2, a2, a3)) →
      countKey st k = 1 → countKey st2 k = 1) :
    ∀ (bds : List Badge) (st st' : Store) (rs : List JsArg),
      awardListWith awardFn st bds = some (.ok (st', rs)) →
      countKey st k = 1 → countKey st' k = 1 := by
  intro bds
  induction bds with
  | nil =>
    intro st st' rs h h1
    rw [awardListWith] at h
    simp only [Option.some.injEq, Except.ok.injEq, Prod.mk.injEq] at h
    rw [← h.1]
    exact h1
  | cons bd rest ih =>
    intro st st' rs h h1
    rw [awardListWith] at h
    split at h
    · exact Option.noConfusion h
    · simp at h
    · rename_i st1 a2 a3 haw
      split at h
      · exact Option.noConfusion h
      · simp at h
      · rename_i st2 results hrest
        simp only [Option.some.injEq, Except.ok.injEq, Prod.mk.injEq] at h
        rw [← h.1]
        exact ih st1 st2 results hrest (hA st bd st1 a2 a3 haw h1)

theorem cascadeWith_keep (k : String)
    (awardFn : Store → Badge → Option (Except Nat (Store × JsArg × JsArg)))
    (hA : ∀ st bd st2 a2 a3, awardFn st bd = some (.ok (st2, a2, a3)) →
      countKey st k = 1 → countKey st2 k = 1) :
    ∀ (cats : List String) (st : Store) (email : String) (st' : Store) (rs : List JsArg),
      cascadeWith awardFn st email cats = some (.ok (st', rs)) →
      countKey st k = 1 → countKey st' k = 1 := by
  intro cats
  induction cats with
  | nil =>
    intro st email st' rs h h1
    rw [cascadeWith] at h
    simp only [Option.some.injEq, Except.ok.injEq, Prod.mk.injEq] at h
    rw [← h.1]
    exact h1
  | cons category rest ih =>
    intro st email st' rs h h1
    rw [cascadeWith] at h
    split at h
    · exact Option.noConfusion h
    · simp at h
    · rename_i st1 results hlist
      split at h
      · exact Option.noConfusion h
      · simp at h
      · rename_i st2 more hrest
        simp only [Option.some.injEq, Except.ok.injEq, Prod.mk.injEq] at h
        rw [← h.1]
        exact ih st1 email st2 more hrest
          (awardListWith_keep k awardFn hA (eligibleCapstones st email category)
            st st1 results hlist h1)

theorem countKey_sendEmailLog (se : Bool) (store : Store) (inst : BadgeInstance)
    (k : String) : countKey (sendEmailLog se store inst) k = countKey store k := by
  rw [sendEmailLog]
  cases se
  · rfl
  · rfl

theorem award_keep (k : String) :
    ∀ (fuel : Nat) (st : Store) (b : Badge) (email : String) (se : Bool)
      (st' : Store) (a2 a3 : JsArg),
      award fuel st b email se = some (.ok (st', a2, a3)) →
      countKey st k = 1 → countKey st' k = 1 := by
  intro fuel
  induction fuel with
  | zero =>
    intro st b email se st' a2 a3 h h1
    exact Option.noConfusion h
  | succ n ih =>
    intro st b email se st' a2 a3 h h1
    rw [award] at h
    split at h
    · rename_i code hsave
      split at h
      · simp only [Option.some.injEq, Except.ok.injEq, Prod.mk.injEq] at h
        rw [← h.1]
        exact h1
      · simp at h
    · rename_i st1 hsave
      have h2 : countKey st1 k = 1 := countKey_save hsave h1
      have h3 : countKey (sendEmailLog se st1 (mkInstance email b)) k = 1 := by
        rw [countKey_sendEmailLog]
        exact h2
      split at h
      · simp only [Option.some.injEq, Except.ok.injEq, Prod.mk.injEq] at h
        rw [← h.1]
        exact h3
      · split at h
        · exact Option.noConfusion h
        · simp at h
        · rename_i st3 results hcas
          simp only [Option.some.injEq, Except.ok.injEq, Prod.mk.injEq] at h
          rw [← h.1]
          exact cascadeWith_keep k _
            (fun sta bd stb b2 b3 hx h1x => ih sta bd email true stb b2 b3 hx h1x)
            b.categories (sendEmailLog se st1 (mkInstance email b)) email st3 results hcas h3

/-- C5: starting from a store with no instance for `(user, badge)`, a
successful `award` leaves exactly one `BadgeInstance` with that
`userBadgeKey`, and a second `award` for the same pair hits the unique
index (error 11000), which `award` converts into the success callback
`callback()` — no instance, no error, store unchanged. -/
theorem claim5_award_idempotent (fuel1 fuel2 : Nat) (store : Store) (b : Badge)
    (email : String) (se1 se2 : Bool) (store1 : Store) (a2 a3 : JsArg)
    (h0 : countKey store (email ++ "." ++ b.shortname) = 0)
    (h1 : award (fuel1 + 1) store b email se1 = some (.ok (store1, a2, a3))) :
    countKey store1 (email ++ "." ++ b.shortname) = 1 ∧
    award (fuel2 + 1) store1 b email se2 = some (.ok (store1, .undef, .undef)) := by
  set k := email ++ "." ++ b.shortname with hk
  have hkey : (mkInstance email b).userBadgeKey = k := rfl
  have hc1 : countKey store1 k = 1 := by
    rw [award] at h1
    split at h1
    · rename_i code hsave
      rw [saveInstance, any_false_of_countKey_zero (by rw [hkey]; exact h0),
        if_neg (by simp)] at hsave
      exact Except.noConfusion hsave
    · rename_i stA hsave
      have hstA : stA =
          { store with instances := store.instances ++ [mkInstance email b] } := by
        rw [saveInstance, any_false_of_countKey_zero (by rw [hkey]; exact h0),
          if_neg (by simp)] at hsave
        simp only [Except.ok.injEq] at hsave
        exact hsave.symm
      have hA0 : store.instances.countP (fun j => j.userBadgeKey == k) = 0 := h0
      have hA1 : countKey stA k = 1 := by
        rw [hstA]
        show (store.instances ++ [mkInstance email b]).countP
          (fun j => j.userBadgeKey == k) = 1
        rw [List.countP_append, hA0, List.countP_cons]
        simp [hkey]
      have h3 : countKey (sendEmailLog se1 stA (mkInstance email b)) k = 1 := by
        rw [countKey_sendEmailLog]
        exact hA1
      split at h1
      · simp only [Option.some.injEq, Except.ok.injEq, Prod.mk.injEq] at h1
        rw [← h1.1]
        exact h3
      · split at h1
        · exact Option.noConfusion h1
        · simp at h1
        · rename_i st3 results hcas
          simp only [Option.some.injEq, Except.ok.injEq, Prod.mk.injEq] at h1
          rw [← h1.1]
          exact cascadeWith_keep k _
            (fun sta bd stb b2 b3 hx h1x => award_keep k fuel1 sta bd email true stb b2 b3
              hx h1x)
            b.categories (sendEmailLog se1 stA (mkInstance email b)) email st3 results
            hcas h3
  refine ⟨hc1, ?_⟩
  rw [award, saveInstance, any_true_of_countKey_one (by rw [hkey]; exact hc1), if_pos rfl]
  rfl

/-- Witness for C5: a fresh award of the plain badge persists one instance;
repeating it is the no-op success. -/
theorem claim5_witness :
    countKey { badges := [plainBadge],
               instances := [mkInstance "u@example.org" plainBadge],
               emailLog := [] } "u@example.org.plain" = 1 ∧
    award 1 { badges := [plainBadge],
              instances := [mkInstance "u@example.org" plainBadge],
              emailLog := [] } plainBadge "u@example.org" false =
      some (.ok ({ badges := [plainBadge],
                   instances := [mkInstance "u@example.org" plainBadge],
                   emailLog := [] }, .undef, .undef)) :=
  claim5_award_idempotent 0 0 { badges := [plainBadge], instances := [], emailLog := [] }
    plainBadge "u@example.org" false false
    { badges := [plainBadge], instances := [mkInstance "u@example.org" plainBadge],
      emailLog := [] }
    (.inst (mkInstance "u@example.org" plainBadge)) (.arr []) (by decide) rfl

/-! ## C6 and C2 — the category cascade of `award` -/

/-- C6: in the scenario (A: weight 5 on `x-cat`; B: capstone for `x-cat`
with requirement 5; U holds neither) awarding A to U cascade-awards B, B's
instance appears in the returned cascaded instances, and the `sendEmail`
branch ran for the cascaded award; in general, for each category a capstone
is cascade-awarded exactly when it declares that `categoryAward`, the
user's weighted score over owned badges tagging the category meets its
`categoryRequirement`, and the user does not already hold it. -/
theorem claim6_cascade :
    (award 2 cascadeStore badgeA "u@example.org" false =
       some (.ok (cascadeStoreF, .arr [.inst instB6], .arr [.inst instB6])) ∧
     instB6 = mkInstance "u@example.org" badgeB ∧
     cascadeStoreF.emailLog = [instB6.userBadgeKey]) ∧
    (∀ (store : Store) (email category : String) (bd : Badge),
      bd ∈ eligibleCapstones store email category ↔
        (bd ∈ store.badges ∧ bd.categoryAward = some category ∧
         bd.categoryRequirement ≤ categoryScore store email category ∧
         userHasBadge store email bd.shortname = false)) := by
  constructor
  · exact ⟨rfl, rfl, rfl⟩
  · intro store email category bd
    rw [eligibleCapstones, capstonesFor]
    simp only [List.mem_filter, decide_eq_true_eq, Bool.not_eq_true', beq_iff_eq,
      and_assoc]

/-- Witness for C6's general characterisation: in the mid-cascade store, B
is eligible for `x-cat` (it is the capstone, U's score is 5 ≥ 5, and U does
not hold B). -/
theorem claim6_witness :
    badgeB ∈ eligibleCapstones cascadeStoreMid "u@example.org" "x-cat" :=
  (claim6_cascade.2 cascadeStoreMid "u@example.org" "x-cat" badgeB).mpr
    ⟨by decide, rfl, by decide, rfl⟩

/-- C2: on the category path `award` calls
`callback(null, instances, instances)` — the *cascaded-instances array* is
passed as both the instance argument and the cascaded-instances argument,
so the directly-awarded instance (`instA6` here) is never handed to the
callback; the claim's promised `instance` result is wrong on this path. -/
theorem claim2_category_callback_bug :
    award 2 cascadeStore badgeA "u@example.org" false =
      some (.ok (cascadeStoreF, .arr [.inst instB6], .arr [.inst instB6])) ∧
    JsArg.arr [JsArg.inst instB6] ≠ JsArg.inst (mkInstance "u@example.org" badgeA) :=
  ⟨rfl, fun h => JsArg.noConfusion h⟩

end Badger
